import Mathlib

/-!
Shallow embedding of the karius repository (RAG service):
`app/rag_pipeline.py`, `app/main.py`, `scripts/ingest.py`,
`scripts/embed_and_store.py`.  External services (Pinecone vector index,
Novita embedding/LLM API, SQLAlchemy session) are modelled as explicit
state and oracle functions; the Python functions are translated directly.
-/

namespace Karius

/-! ## Metadata values and filters (Pinecone sidecar attributes) -/

/-- A scalar metadata value as stored in the vector index. -/
inductive PVal where
  | s (x : String)
  | i (n : Int)
  deriving DecidableEq, Repr

/-- A metadata map attached to a vector entry / retrieved document. -/
abbrev PMeta := List (String × PVal)

/-- Dictionary lookup (first binding wins), i.e. Python `md.get(k)`. -/
def metaGet (md : PMeta) (k : String) : Option PVal :=
  match md with
  | [] => none
  | (k2, v) :: rest => if k2 = k then some v else metaGet rest k

/-- An equality metadata filter as passed to the vector store
(`search_kwargs` key `filter`). -/
abbrev MetaFilter := List (String × PVal)

/-- Pinecone equality-filter semantics: every key named by the filter must be
present in the metadata with exactly the given value. -/
def matchesFilter (f : MetaFilter) (md : PMeta) : Bool :=
  f.all (fun kv => decide (metaGet md kv.1 = some kv.2))

/-! ## Documents and the vector store -/

/-- A langchain document as returned by a retriever. -/
structure Doc where
  page_content : String
  metadata : PMeta
  deriving DecidableEq, Repr

/-- The vector store: the entries of the index together with a similarity
scoring oracle (query text and document to similarity score), standing for
the embedding of the query plus cosine similarity against stored vectors. -/
structure VectorStore where
  entries : List Doc
  score : String → Doc → Int

/-- A retriever: either a plain similarity-search retriever over the store
(`vectorstore.as_retriever(search_type="similarity", search_kwargs=...)`)
with `k` and an optional metadata filter, or a
`ContextualCompressionRetriever` wrapping a base retriever with an
`LLMChainExtractor` (modelled as an extraction oracle: question and document
content to optionally compressed content; `none` drops the document). -/
inductive Retriever where
  | plain (vs : VectorStore) (k : Nat) (filt : Option MetaFilter)
  | compression (extract : String → String → Option String) (base : Retriever)

/-- Insert a document into a score-descending list (stable). -/
def insertByScore (sc : Doc → Int) (d : Doc) : List Doc → List Doc
  | [] => [d]
  | e :: es => if sc e ≤ sc d then d :: e :: es else e :: insertByScore sc d es

/-- Rank documents by descending similarity score. -/
def rankByScore (sc : Doc → Int) : List Doc → List Doc
  | [] => []
  | d :: ds => insertByScore sc d (rankByScore sc ds)

/-- Retrieval: Pinecone similarity search restricts to the entries matching
the metadata filter (when one is set), ranks them by similarity to the query
and returns the top `k`; a compression retriever post-processes the base
results, replacing each content by its extracted span and dropping documents
with no relevant span, with metadata kept unchanged. -/
def getRelevantDocuments : Retriever → String → List Doc
  | .plain vs k filt, q =>
      let eligible :=
        match filt with
        | none => vs.entries
        | some f => vs.entries.filter (fun d => matchesFilter f d.metadata)
      (rankByScore (vs.score q) eligible).take k
  | .compression ex base, q =>
      (getRelevantDocuments base q).filterMap
        (fun d => (ex q d.page_content).map (fun c => { d with page_content := c }))

/-! ## LLM adapter and prompt templates (`app/rag_pipeline.py`) -/

/-- The Novita LLM adapter, modelled by its two uses: free generation
(`llm(prompt)`) and the `LLMChainExtractor` compression behaviour. -/
structure NovitaLLM where
  generate : String → String
  extract : String → String → Option String

/-- The Novita embeddings adapter (query text to embedding), kept abstract. -/
abbrev NovitaEmbeddings := String → List Int

def MARKET_EXPANSION_TEMPLATE : String :=
  "\nYou are an AI market analyst assistant for Karius, a company specializing in infectious disease diagnostics.\nYour task is to analyze the following information and provide strategic insights.\n\nContext information from global health and market data:\n\x7bcontext\x7d\n\nBased only on the above context, answer the following question about market expansion or partner opportunities:\nQuestion: \x7bquestion\x7d\n\nProvide a structured answer with:\n1. Key findings/insights\n2. Strategic recommendations\n3. Potential risks or limitations\n"

def PARTNER_DISCOVERY_TEMPLATE : String :=
  "\nYou are an AI partner discovery assistant for Karius, a company specializing in infectious disease diagnostics.\nYour task is to identify and evaluate potential partners based on the provided information.\n\nContext information from global health data, hospital directories, and competitor analysis:\n\x7bcontext\x7d\n\nBased only on the above context, answer the following question about potential partners or collaboration opportunities:\nQuestion: \x7bquestion\x7d\n\nProvide a structured answer with:\n1. Evaluation of potential partners\n2. Strategic fit with Karius\n3. Next steps for engagement\n"

/-- `PromptTemplate` substitution of the `context` and `question` variables. -/
def formatPrompt (template context question : String) : String :=
  (template.replace "\x7bcontext\x7d" context).replace "\x7bquestion\x7d" question

/-- A `RetrievalQA` chain (`chain_type="stuff"`, `return_source_documents=True`). -/
structure RetrievalQA where
  llm : NovitaLLM
  prompt : String
  retriever : Retriever

/-- Raw chain output: `result` and `source_documents`. -/
structure QAOutput where
  result : String
  source_documents : List Doc

/-- Run a stuff-type `RetrievalQA` chain: retrieve documents, join their
contents into one context block, substitute into the prompt and call the LLM
once; also return the retrieved documents. -/
def runRetrievalQA (c : RetrievalQA) (query : String) : QAOutput :=
  let docs := getRelevantDocuments c.retriever query
  let context := String.intercalate "\n\n" (docs.map (·.page_content))
  { result := c.llm.generate (formatPrompt c.prompt context query)
    source_documents := docs }

/-! ## The RAG pipeline (`RAGPipeline`) -/

/-- The mutable state of a `RAGPipeline` instance: the fields assigned in
`__init__` (`embeddings`, `llm`, `vectorstore`, `retriever`, `default_qa`,
`partner_qa`). -/
structure RAGPipeline where
  embeddings : NovitaEmbeddings
  llm : NovitaLLM
  vectorstore : VectorStore
  retriever : Retriever
  default_qa : RetrievalQA
  partner_qa : RetrievalQA

/-- `RAGPipeline._create_qa_chain`: builds a `RetrievalQA` chain from the
given template over the current `self.llm` and `self.retriever`. -/
def createQaChain (llm : NovitaLLM) (retriever : Retriever) (template_str : String) :
    RetrievalQA :=
  { llm := llm, prompt := template_str, retriever := retriever }

/-- `RAGPipeline.__init__`: base retriever is plain similarity search with
`k = 10` and no filter; when `use_contextual_compression` it is wrapped in a
`ContextualCompressionRetriever`; then the market (default) and partner
chains are created over the current retriever. -/
def mkRAGPipeline (emb : NovitaEmbeddings) (llm : NovitaLLM) (vs : VectorStore)
    (use_contextual_compression : Bool) : RAGPipeline :=
  let base := Retriever.plain vs 10 none
  let retr :=
    if use_contextual_compression then Retriever.compression llm.extract base else base
  { embeddings := emb
    llm := llm
    vectorstore := vs
    retriever := retr
    default_qa := createQaChain llm retr MARKET_EXPANSION_TEMPLATE
    partner_qa := createQaChain llm retr PARTNER_DISCOVERY_TEMPLATE }

/-- Python `str.lower()` (ASCII case folding, which is all the dispatch
comparison needs): lower-case every character of the string. -/
def pyLower (s : String) : String := ⟨s.data.map Char.toLower⟩

/-- The dict returned by `RAGPipeline.query`. -/
structure QueryResult where
  answer : String
  source_documents : List Doc
  deriving DecidableEq, Repr

/-- `RAGPipeline.query`: dispatch on `query_type.lower() == "partner"` to the
partner chain, otherwise the default (market) chain. -/
def RAGPipeline.query (p : RAGPipeline) (question : String) (query_type : String) :
    QueryResult :=
  if pyLower query_type = "partner" then
    let result := runRetrievalQA p.partner_qa question
    { answer := result.result, source_documents := result.source_documents }
  else
    let result := runRetrievalQA p.default_qa question
    { answer := result.result, source_documents := result.source_documents }

/-- `RAGPipeline.filter_by_metadata`: rebuild the retriever over the same
vector store with `k = 10` plus the given equality filter, assign it, and
recreate both QA chains over it. -/
def RAGPipeline.filter_by_metadata (p : RAGPipeline) (metadata_filters : MetaFilter) :
    RAGPipeline :=
  let filtered_retriever := Retriever.plain p.vectorstore 10 (some metadata_filters)
  { p with
    retriever := filtered_retriever
    default_qa := createQaChain p.llm filtered_retriever MARKET_EXPANSION_TEMPLATE
    partner_qa := createQaChain p.llm filtered_retriever PARTNER_DISCOVERY_TEMPLATE }

/-! ## API layer (`app/main.py`) -/

/-- `QueryRequest` body of `POST /query`. -/
structure QueryRequest where
  question : String
  query_type : String
  metadata_filters : Option MetaFilter

/-- `SourceDocument` response model.  The `source` field is whatever
`doc.metadata.get("source", "unknown")` returns, so it is a metadata value. -/
structure SourceDocument where
  content : String
  source : PVal
  metadata : PMeta
  deriving DecidableEq, Repr

/-- `QueryResponse` of `POST /query`. -/
structure QueryResponse where
  answer : String
  sources : List SourceDocument
  deriving DecidableEq, Repr

/-- The per-document formatting step of `query_assistant`
(`main.py` lines 97-103). -/
def formatSourceDocument (doc : Doc) : SourceDocument :=
  { content := doc.page_content
    source := (metaGet doc.metadata "source").getD (PVal.s "unknown")
    metadata := doc.metadata }

/-- `POST /query` handler `query_assistant`, with the shared pipeline
instance threaded explicitly: apply `filter_by_metadata` when
`request.metadata_filters` is truthy (in Python an empty dict is falsy),
run the query, format the source documents, and return the response together
with the (possibly mutated) shared pipeline. -/
def query_assistant (rag : RAGPipeline) (request : QueryRequest) :
    QueryResponse × RAGPipeline :=
  let rag :=
    match request.metadata_filters with
    | some f => if f = [] then rag else rag.filter_by_metadata f
    | none => rag
  let result := rag.query request.question request.query_type
  ({ answer := result.answer
     sources := result.source_documents.map formatSourceDocument }, rag)

/-! ## CSV ingestion (`scripts/ingest.py`, `ingest_who_csv`) -/

/-- A parsed CSV row, as iterated by `df.iterrows()`: the cells map column
name to a value, where `none` stands for a NaN cell (`pd.notna` false) and
`some v` for a present value rendered as the string `v`.  The `raises` flag
models the row raising an exception while being processed (before the
`db.add` call), which the per-row `except` block catches. -/
structure CsvRow where
  cells : List (String × Option String)
  raises : Bool
  deriving DecidableEq, Repr

/-- Python `col in row` followed by `pd.notna(row[col])`: the column is
present and its value is not NaN. -/
def cellGet (r : CsvRow) (col : String) : Option String :=
  match r.cells.find? (fun c => c.1 = col) with
  | some (_, some v) => some v
  | _ => none

/-- Build the `content` string of a row: the present, non-NaN recognized
fields with their labels, joined by `"; "`. -/
def rowContent (r : CsvRow) : String :=
  let content_parts :=
    (match cellGet r "IndicatorName" with
      | some v => ["Indicator: " ++ v] | none => []) ++
    (match cellGet r "Location" with
      | some v => ["Location: " ++ v] | none => []) ++
    (match cellGet r "Period" with
      | some v => ["Period: " ++ v] | none => []) ++
    (match cellGet r "Dim1" with
      | some v => ["Dimension 1: " ++ v] | none => []) ++
    (match cellGet r "Value" with
      | some v => ["Value: " ++ v] | none => [])
  String.intercalate "; " content_parts

/-- `metadata_cleaned`: the whole row as a dict with NaN mapped to null —
exactly the row cells in this model. -/
def rowMetadata (r : CsvRow) : List (String × Option String) := r.cells

/-- A `DataRecord` as stored by ingestion (`id` is assigned by the database
on commit and plays no role here). -/
structure StoredRecord where
  source : String
  content : String
  metadata : List (String × Option String)
  deriving DecidableEq, Repr

/-- The SQLAlchemy session plus the counters of `ingest_who_csv`:
`committed` rows are persisted, `pending` rows have been `db.add`-ed but not
yet committed; `db.commit()` moves pending to committed, `db.rollback()`
discards all pending rows. -/
structure IngestState where
  committed : List StoredRecord
  pending : List StoredRecord
  added : Nat
  skipped : Nat
  deriving DecidableEq, Repr

/-- One iteration of the row loop of `ingest_who_csv`:
if processing the row raises, the `except` block runs `db.rollback()`
(discarding every pending uncommitted insert), increments `skipped_count`
and continues; otherwise, a row with empty content is skipped; otherwise the
record is added to the session, `added_count` is incremented, and every
100th added record triggers a periodic `db.commit()`. -/
def processRow (s : IngestState) (r : CsvRow) : IngestState :=
  if r.raises then
    { s with pending := [], skipped := s.skipped + 1 }
  else
    let content := rowContent r
    if content = "" then
      { s with skipped := s.skipped + 1 }
    else
      let record : StoredRecord :=
        { source := "who_csv", content := content, metadata := rowMetadata r }
      let pending := s.pending ++ [record]
      let added := s.added + 1
      if added % 100 = 0 then
        { committed := s.committed ++ pending, pending := [], added := added,
          skipped := s.skipped }
      else
        { s with pending := pending, added := added }

/-- `ingest_who_csv` on an already-parsed CSV: run the row loop from a fresh
session and zero counters, then the final `db.commit()`. -/
def ingest_who_csv (rows : List CsvRow) : IngestState :=
  let s := rows.foldl processRow { committed := [], pending := [], added := 0, skipped := 0 }
  { committed := s.committed ++ s.pending, pending := [], added := s.added,
    skipped := s.skipped }

/-! ## Statistics endpoint (`app/main.py`, `get_statistics`) -/

/-- SQL `GROUP BY source` counts: bump the count of `src`, inserting it with
count 1 when absent. -/
def bumpCount : List (String × Nat) → String → List (String × Nat)
  | [], src => [(src, 1)]
  | (k, n) :: rest, src =>
      if k = src then (k, n + 1) :: rest else (k, n) :: bumpCount rest src

/-- The per-source row counts of a records table. -/
def sourceCounts (db : List StoredRecord) : List (String × Nat) :=
  db.foldl (fun acc r => bumpCount acc r.source) []

/-- `StatsResponse` model. -/
structure StatsResponse where
  total_records : Nat
  by_source : List (String × Nat)
  deriving DecidableEq, Repr

/-- `get_statistics` as written: `db.query(DataRecord).count()` succeeds, but
the next statement evaluates `db.func.count(DataRecord.id)` — a SQLAlchemy
`Session` object has no attribute `func` — so every call raises
`AttributeError`, which the handler surfaces as an HTTP 500 error. -/
def get_statistics (db : List StoredRecord) : Except String StatsResponse :=
  let _total_records := db.length
  Except.error "Database error: AttributeError: Session object has no attribute func"

/-- Modelled from the spec: the statistics the endpoint is specified to
return (`total_records` is the row count of the records table, `by_source`
the per-source GROUP BY counts); the handler body cannot be run as written,
so the intended computation is reconstructed from the spec for comparison. -/
def statsSpec (db : List StoredRecord) : StatsResponse :=
  { total_records := db.length, by_source := sourceCounts db }

/-! ## Embedding job (`scripts/embed_and_store.py`) -/

/-- A database record as read by the embedding job. -/
structure DataRecord where
  id : Nat
  source : String
  content : String
  metadata : List (String × Option String)
  deriving DecidableEq, Repr

/-- An embedding vector (component values kept abstract as integers). -/
abbrev Vec := List Int

/-- A Pinecone vector entry `(id, values, metadata)`. -/
structure PineconeVector where
  id : String
  values : Vec
  metadata : PMeta
  deriving DecidableEq, Repr

/-- The Pinecone index contents, keyed by `PineconeVector.id`. -/
abbrev PineconeIndex := List PineconeVector

/-- Upsert one vector: overwrite the entry with the same id, or append a new
entry when the id is not yet present. -/
def upsertOne (idx : PineconeIndex) (v : PineconeVector) : PineconeIndex :=
  match idx with
  | [] => [v]
  | w :: rest => if w.id = v.id then v :: rest else w :: upsertOne rest v

/-- `pinecone_index.upsert(vectors=vs)`: upsert the vectors in order. -/
def upsertMany : PineconeIndex → List PineconeVector → PineconeIndex
  | idx, [] => idx
  | idx, v :: vs => upsertMany (upsertOne idx v) vs

/-- The relevant configuration (`app/config.py`). -/
structure Settings where
  novita_embedding_model : String
  deriving DecidableEq, Repr

/-- The external services used by `embed_and_store_records`: the Novita
batch and single embedding calls (which may raise, modelled as `Except`),
and a failure oracle for the Pinecone upsert call (`true` means the call
raises). -/
structure EmbedEnv where
  embedBatch : String → List String → Except String (List Vec)
  embed : String → String → Except String Vec
  upsertFails : List PineconeVector → Bool

/-- `prepare_metadata`: base metadata `record_id` and `source`, plus the
allow-listed metadata fields (`region`, `country`, `year`, `type`,
`category`) that are present and not null. -/
def prepare_metadata (record : DataRecord) : PMeta :=
  [("record_id", PVal.i record.id), ("source", PVal.s record.source)] ++
    (["region", "country", "year", "type", "category"].filterMap
      (fun key =>
        match record.metadata.find? (fun c => c.1 = key) with
        | some (_, some v) => some (key, PVal.s v)
        | _ => none))

/-- `zip(record_ids, embeddings, records)` followed by building the
`(str(record_id), embedding, prepare_metadata(record))` triples; `zip`
truncates to the shorter of the two lists (ids and records march in
lockstep). -/
def pineconeRecordsOf : List DataRecord → List Vec → List PineconeVector
  | r :: rs, v :: vs =>
      { id := toString r.id, values := v, metadata := prepare_metadata r } ::
        pineconeRecordsOf rs vs
  | _, _ => []

/-- The one-record-at-a-time fallback body: embed the single content and
upsert one vector; on any exception count an error, otherwise a success. -/
def fallbackStep (st : Settings) (env : EmbedEnv)
    (acc : PineconeIndex × Nat × Nat) (record : DataRecord) :
    PineconeIndex × Nat × Nat :=
  match env.embed st.novita_embedding_model record.content with
  | .error _ => (acc.1, acc.2.1, acc.2.2 + 1)
  | .ok embedding =>
      let v : PineconeVector :=
        { id := toString record.id, values := embedding,
          metadata := prepare_metadata record }
      if env.upsertFails [v] then (acc.1, acc.2.1, acc.2.2 + 1)
      else (upsertOne acc.1 v, acc.2.1 + 1, acc.2.2)

/-- `embed_and_store_records`: returns the updated index together with
`(success_count, error_count)`.  Empty input returns immediately; otherwise
the batch path embeds all contents at once and upserts the zipped vectors;
if the batch path raises (batch embedding call or the upsert), the records
are retried one by one. -/
def embed_and_store_records (st : Settings) (env : EmbedEnv)
    (idx : PineconeIndex) (records : List DataRecord) :
    PineconeIndex × Nat × Nat :=
  let contents := records.map (fun r => r.content)
  if contents = [] then (idx, 0, 0)
  else
    match env.embedBatch st.novita_embedding_model contents with
    | .ok embeddings =>
        let pinecone_records := pineconeRecordsOf records embeddings
        if env.upsertFails pinecone_records then
          records.foldl (fallbackStep st env) (idx, 0, 0)
        else
          (upsertMany idx pinecone_records, pinecone_records.length, 0)
    | .error _ =>
        records.foldl (fallbackStep st env) (idx, 0, 0)

/-- The last write to key `k` in an upsert sequence, which is the entry that
wins (later list entries are later writes). -/
def lastWrite : List PineconeVector → String → Option PineconeVector
  | [], _ => none
  | v :: rest, k =>
      match lastWrite rest k with
      | some w => some w
      | none => if v.id = k then some v else none

/-- Look up the entry stored under id `k`. -/
def indexGet : PineconeIndex → String → Option PineconeVector
  | [], _ => none
  | v :: rest, k => if v.id = k then some v else indexGet rest k

/-- Number of entries stored under id `k`. -/
def keyCount : PineconeIndex → String → Nat
  | [], _ => 0
  | v :: rest, k => (if v.id = k then 1 else 0) + keyCount rest k

/-- The index has at most one entry per id. -/
def NodupKeys (idx : PineconeIndex) : Prop :=
  (idx.map (fun v => v.id)).Nodup

/-! ## Record selection generator (`get_records_to_embed`) -/

/-- The batching loop of `get_records_to_embed`, with explicit fuel (the
loop runs at most `rows.length + 1` iterations, since each non-final
iteration advances `offset` by at least one).  Each iteration fetches
`query.offset(offset).limit(batch_size)` — note that in SQLAlchemy this
second `.limit` call REPLACES the `.limit(limit)` applied earlier, so the
slice is `rows[offset : offset + batch_size]` of the filtered rows with no
overall cap — yields the batch if non-empty, advances `offset` by the batch
length, and stops once `limit` is truthy and `offset >= limit`
(`limitReached` is that break test; Python treats `None` and `0` as falsy). -/
def limitReached (limit : Option Nat) (offset : Nat) : Bool :=
  match limit with
  | some l => decide (0 < l) && decide (l ≤ offset)
  | none => false

def batchLoop (rows : List DataRecord) (limit : Option Nat) (batch_size : Nat) :
    Nat → Nat → List (List DataRecord)
  | 0, _ => []
  | fuel + 1, offset =>
      let batch_records := ((rows.drop offset).take batch_size)
      if batch_records = [] then []
      else
        let offset2 := offset + batch_records.length
        if limitReached limit offset2 then
          [batch_records]
        else
          batch_records :: batchLoop rows limit batch_size fuel offset2

/-- `get_records_to_embed`: filter by `source` when truthy (Python treats
`None` and the empty string as falsy), then yield batches. -/
def get_records_to_embed (db : List DataRecord) (source : Option String)
    (limit : Option Nat) (batch_size : Nat) : List (List DataRecord) :=
  let rows :=
    match source with
    | some s => if s = "" then db else db.filter (fun r => r.source = s)
    | none => db
  batchLoop rows limit batch_size (rows.length + 1) 0

/-! ## Concrete fixtures used by witnesses and counterexamples -/

def wRow1 : CsvRow :=
  ⟨[("IndicatorName", some "Measles"), ("Location", some "Kenya"), ("Value", some "12")], false⟩

def wBlankRow : CsvRow :=
  ⟨[("IndicatorName", none), ("Location", none), ("Period", none), ("Dim1", none),
    ("Value", none)], false⟩

def wRow3 : CsvRow :=
  ⟨[("IndicatorName", some "Cholera"), ("Location", some "Peru"), ("Value", some "7")], false⟩

def wErrRow : CsvRow := ⟨[("IndicatorName", some "X")], true⟩

def wRec1 : DataRecord := ⟨1, "who_csv", "c", []⟩
def wRec2 : DataRecord := ⟨2, "who_csv", "c", []⟩
def wRec3 : DataRecord := ⟨3, "who_csv", "c", []⟩
def wRec4 : DataRecord := ⟨4, "who_csv", "c", []⟩

def wSt : Settings := ⟨"bge-m3"⟩

def wGoodEnv : EmbedEnv :=
  ⟨fun _ ins => .ok (ins.map (fun _ => [1])), fun _ _ => .ok [2], fun _ => false⟩

def wBadEnv : EmbedEnv :=
  ⟨fun _ _ => .error "batch embedding failed",
   fun _ c => if c = "bad" then .error "bad record" else .ok [2],
   fun _ => false⟩

def wRecA : DataRecord := ⟨1, "who_csv", "good", [("region", some "EU")]⟩
def wRecB : DataRecord := ⟨2, "who_csv", "bad", []⟩

def wDoc1 : Doc := ⟨"doc about EU", [("region", PVal.s "EU"), ("source", PVal.s "who_csv")]⟩
def wDoc2 : Doc := ⟨"doc about US", [("region", PVal.s "US")]⟩
def wVS : VectorStore := ⟨[wDoc1, wDoc2], fun _ _ => 0⟩
def wLLM : NovitaLLM := ⟨fun _ => "answer", fun _ c => some c⟩
def wEmb : NovitaEmbeddings := fun _ => []
def wFilter : MetaFilter := [("region", PVal.s "EU")]

/-! ## Helper lemmas -/

lemma mem_insertByScore (sc : Doc → Int) (d e : Doc) (l : List Doc) :
    e ∈ insertByScore sc d l → e = d ∨ e ∈ l := by
  induction l with
  | nil =>
      intro h
      simp only [insertByScore, List.mem_singleton] at h
      exact Or.inl h
  | cons x xs ih =>
      intro h
      by_cases hle : sc x ≤ sc d
      · simp only [insertByScore, if_pos hle, List.mem_cons] at h
        rcases h with h | h
        · exact Or.inl h
        · exact Or.inr (List.mem_cons.mpr h)
      · simp only [insertByScore, if_neg hle, List.mem_cons] at h
        rcases h with h | h
        · exact Or.inr (List.mem_cons.mpr (Or.inl h))
        · rcases ih h with h2 | h2
          · exact Or.inl h2
          · exact Or.inr (List.mem_cons.mpr (Or.inr h2))

lemma mem_rankByScore (sc : Doc → Int) (e : Doc) (l : List Doc) :
    e ∈ rankByScore sc l → e ∈ l := by
  induction l with
  | nil => intro h; simp [rankByScore] at h
  | cons x xs ih =>
      intro h
      simp only [rankByScore] at h
      rcases mem_insertByScore sc x e _ h with h2 | h2
      · simp [h2]
      · exact List.mem_cons_of_mem _ (ih h2)

/-- Documents retrieved through a plain retriever carrying a metadata filter
all satisfy the filter. -/
lemma mem_getRelevantDocuments_filtered (vs : VectorStore) (k : Nat) (f : MetaFilter)
    (q : String) (d : Doc)
    (h : d ∈ getRelevantDocuments (Retriever.plain vs k (some f)) q) :
    matchesFilter f d.metadata = true := by
  simp only [getRelevantDocuments] at h
  have h1 := List.take_subset _ _ h
  have h2 := mem_rankByScore _ _ _ h1
  exact (List.mem_filter.mp h2).2

/-- After `filter_by_metadata`, every document returned by `query` satisfies
the filter (shared by the metadata-filter and frame claims). -/
lemma query_after_filter_matches (p : RAGPipeline) (f : MetaFilter)
    (question query_type : String) (d : Doc)
    (h : d ∈ ((p.filter_by_metadata f).query question query_type).source_documents) :
    matchesFilter f d.metadata = true := by
  simp only [RAGPipeline.query, RAGPipeline.filter_by_metadata, createQaChain,
    runRetrievalQA] at h
  split at h <;>
    exact mem_getRelevantDocuments_filtered p.vectorstore 10 f question d h

/-- The `skipped` counter is write-only: shifting it in the input state
shifts it in the output state and changes nothing else. -/
lemma processRow_skip_frame (c p : List StoredRecord) (a k n : Nat) (r : CsvRow) :
    processRow ⟨c, p, a, k + n⟩ r =
      ⟨(processRow ⟨c, p, a, k⟩ r).committed, (processRow ⟨c, p, a, k⟩ r).pending,
       (processRow ⟨c, p, a, k⟩ r).added, (processRow ⟨c, p, a, k⟩ r).skipped + n⟩ := by
  by_cases hr : r.raises = true
  · simp [processRow, hr]
    omega
  · by_cases hc : rowContent r = ""
    · simp [processRow, hr, hc]
      omega
    · by_cases hm : (a + 1) % 100 = 0
      · simp [processRow, hr, hc, hm]
      · simp [processRow, hr, hc, hm]

lemma foldl_processRow_skip_frame (rows : List CsvRow) :
    ∀ (c p : List StoredRecord) (a k n : Nat),
      rows.foldl processRow ⟨c, p, a, k + n⟩ =
        ⟨(rows.foldl processRow ⟨c, p, a, k⟩).committed,
         (rows.foldl processRow ⟨c, p, a, k⟩).pending,
         (rows.foldl processRow ⟨c, p, a, k⟩).added,
         (rows.foldl processRow ⟨c, p, a, k⟩).skipped + n⟩ := by
  induction rows with
  | nil => intro c p a k n; rfl
  | cons r rest ih =>
      intro c p a k n
      simp only [List.foldl_cons]
      rw [processRow_skip_frame]
      rcases ht : processRow ⟨c, p, a, k⟩ r with ⟨c2, p2, a2, k2⟩
      exact ih c2 p2 a2 k2 n

lemma sum_bumpCount (acc : List (String × Nat)) (src : String) :
    ((bumpCount acc src).map Prod.snd).sum = (acc.map Prod.snd).sum + 1 := by
  induction acc with
  | nil => simp [bumpCount]
  | cons kv rest ih =>
      rcases kv with ⟨k, n⟩
      by_cases hk : k = src
      · simp only [bumpCount, if_pos hk, List.map_cons, List.sum_cons]
        omega
      · simp only [bumpCount, if_neg hk, List.map_cons, List.sum_cons, ih]
        omega

lemma sum_sourceCounts_aux (db : List StoredRecord) :
    ∀ acc : List (String × Nat),
      ((db.foldl (fun acc r => bumpCount acc r.source) acc).map Prod.snd).sum =
        (acc.map Prod.snd).sum + db.length := by
  induction db with
  | nil => intro acc; simp
  | cons r rest ih =>
      intro acc
      simp only [List.foldl_cons, ih, sum_bumpCount, List.length_cons]
      omega

/-- The statistics the endpoint is specified to return are internally
consistent: the per-source counts sum to the total row count. -/
lemma statsSpec_by_source_sums (db : List StoredRecord) :
    ((statsSpec db).by_source.map Prod.snd).sum = (statsSpec db).total_records := by
  simpa [statsSpec, sourceCounts] using sum_sourceCounts_aux db []

/-! ## Claim theorems -/

/-- C1: for every question and `query_type`, `RAGPipeline.query` dispatches
case-insensitively: exactly when the lower-cased `query_type` is
`"partner"` the partner-discovery prompt template (the `partner_qa` chain)
is used, and for every other value — including `"market"` and arbitrary
strings — the market-expansion template (the `default_qa` chain) is used;
both chains retrieve with the pipeline retriever. -/
theorem query_dispatch_case_insensitive (emb : NovitaEmbeddings) (llm : NovitaLLM)
    (vs : VectorStore) (ucc : Bool) (question query_type : String) :
    (mkRAGPipeline emb llm vs ucc).query question query_type =
      { answer := llm.generate (formatPrompt
          (if pyLower query_type = "partner" then PARTNER_DISCOVERY_TEMPLATE
           else MARKET_EXPANSION_TEMPLATE)
          (String.intercalate "\n\n"
            ((getRelevantDocuments (mkRAGPipeline emb llm vs ucc).retriever question).map
              (fun d => d.page_content)))
          question)
        source_documents :=
          getRelevantDocuments (mkRAGPipeline emb llm vs ucc).retriever question } := by
  by_cases h : pyLower query_type = "partner" <;>
    simp [RAGPipeline.query, mkRAGPipeline, createQaChain, runRetrievalQA, h]

/-- C3: evaluation of the ingestion loop at a failing input.  On a 2-row
CSV where row 1 is well-formed and processing row 2 raises, the `except`
branch calls `db.rollback()`, which discards the still-uncommitted insert
of row 1: the run reports `added = 1` yet zero rows are persisted, so a
per-row error does NOT roll back only that row, earlier rows of the run ARE
lost, and the reported added count differs from the persisted count. -/
theorem row_error_discards_pending_inserts :
    (ingest_who_csv [wRow1, wErrRow]).added = 1 ∧
    (ingest_who_csv [wRow1, wErrRow]).skipped = 1 ∧
    (ingest_who_csv [wRow1, wErrRow]).committed = [] := by decide

/-- C6: evaluation of the record-selection generator at a failing input.
With 4 matching records, `limit = 3` and `batch_size = 2`, the generator
yields ALL 4 records (in two disjoint batches), exceeding the limit: the
second `.limit(batch_size)` call replaces the earlier `.limit(limit)`, so
the limit only affects the loop break test, which runs after a full batch
has already been yielded. -/
theorem limit_cap_not_enforced :
    get_records_to_embed [wRec1, wRec2, wRec3, wRec4] none (some 3) 2 =
      [[wRec1, wRec2], [wRec3, wRec4]] ∧
    ((get_records_to_embed [wRec1, wRec2, wRec3, wRec4] none (some 3) 2).map
        List.length).sum = 4 := by decide

/-- C7: evaluation of `get_statistics` as written: for EVERY database state
the handler raises (`db.func` — a SQLAlchemy `Session` has no attribute
`func`), so `/stats` never returns the claimed counts; the intended
computation is `statsSpec`, whose by-source counts do sum to the total
(`statsSpec_by_source_sums`). -/
theorem stats_endpoint_always_raises (db : List StoredRecord) :
    get_statistics db =
      Except.error
        "Database error: AttributeError: Session object has no attribute func" := rfl

/-- C8: a row whose recognized content-source fields are all absent or NaN
is skipped: inserted anywhere in the CSV it leaves the added count and the
persisted rows unchanged, increments the skipped count by one, and does not
abort the ingestion of the surrounding rows; in particular the 3-row CSV
with a blank second row yields `added = 2`, `skipped = 1` and exactly the
two well-formed rows stored with `source = "who_csv"`. -/
theorem blank_row_skipped_and_continue (pre suf : List CsvRow) (r : CsvRow)
    (hr : r.raises = false) (hc : rowContent r = "") :
    ((ingest_who_csv (pre ++ r :: suf)).added = (ingest_who_csv (pre ++ suf)).added ∧
     (ingest_who_csv (pre ++ r :: suf)).skipped =
       (ingest_who_csv (pre ++ suf)).skipped + 1 ∧
     (ingest_who_csv (pre ++ r :: suf)).committed =
       (ingest_who_csv (pre ++ suf)).committed) ∧
    ingest_who_csv [wRow1, wBlankRow, wRow3] =
      { committed :=
          [{ source := "who_csv",
             content := "Indicator: Measles; Location: Kenya; Value: 12",
             metadata := wRow1.cells },
           { source := "who_csv",
             content := "Indicator: Cholera; Location: Peru; Value: 7",
             metadata := wRow3.cells }],
        pending := [], added := 2, skipped := 1 } := by
  have key : (pre ++ r :: suf).foldl processRow ⟨[], [], 0, 0⟩ =
      ⟨((pre ++ suf).foldl processRow ⟨[], [], 0, 0⟩).committed,
       ((pre ++ suf).foldl processRow ⟨[], [], 0, 0⟩).pending,
       ((pre ++ suf).foldl processRow ⟨[], [], 0, 0⟩).added,
       ((pre ++ suf).foldl processRow ⟨[], [], 0, 0⟩).skipped + 1⟩ := by
    rw [List.foldl_append, List.foldl_append, List.foldl_cons]
    rcases hs : pre.foldl processRow ⟨[], [], 0, 0⟩ with ⟨c1, p1, a1, k1⟩
    have hstep : processRow ⟨c1, p1, a1, k1⟩ r = ⟨c1, p1, a1, k1 + 1⟩ := by
      simp [processRow, hr, hc]
    rw [hstep]
    exact foldl_processRow_skip_frame suf c1 p1 a1 k1 1
  refine ⟨⟨?_, ?_, ?_⟩, by decide⟩ <;> simp [ingest_who_csv, key]

/-- Witness for C8: the 3-row scenario instantiates the general statement
(row 2 of `[wRow1, wBlankRow, wRow3]` is all-blank, is skipped, and rows 1
and 3 are ingested as if it were absent). -/
theorem blank_row_skipped_and_continue_witness :
    wBlankRow.raises = false ∧ rowContent wBlankRow = "" ∧
    (ingest_who_csv ([wRow1] ++ wBlankRow :: [wRow3])).added =
      (ingest_who_csv ([wRow1] ++ [wRow3])).added ∧
    (ingest_who_csv ([wRow1] ++ wBlankRow :: [wRow3])).skipped =
      (ingest_who_csv ([wRow1] ++ [wRow3])).skipped + 1 :=
  ⟨rfl, by decide,
   (blank_row_skipped_and_continue [wRow1] [wRow3] wBlankRow rfl (by decide)).1.1,
   (blank_row_skipped_and_continue [wRow1] [wRow3] wBlankRow rfl (by decide)).1.2.1⟩

/-- C2: after `filter_by_metadata f`, the replacement retriever is a plain
similarity retriever over the same vector store with the same `k = 10` plus
`f` as equality filter, both QA chains are rebuilt on top of it, and every
source document returned by a subsequent `query` (either query type)
satisfies every equality constraint of `f`. -/
theorem filter_then_query_returns_matching (emb : NovitaEmbeddings) (llm : NovitaLLM)
    (vs : VectorStore) (ucc : Bool) (f : MetaFilter) :
    ((mkRAGPipeline emb llm vs ucc).filter_by_metadata f).retriever =
        Retriever.plain vs 10 (some f) ∧
    ((mkRAGPipeline emb llm vs ucc).filter_by_metadata f).default_qa =
        createQaChain llm (Retriever.plain vs 10 (some f)) MARKET_EXPANSION_TEMPLATE ∧
    ((mkRAGPipeline emb llm vs ucc).filter_by_metadata f).partner_qa =
        createQaChain llm (Retriever.plain vs 10 (some f)) PARTNER_DISCOVERY_TEMPLATE ∧
    ∀ (question query_type : String) (d : Doc),
      d ∈ (((mkRAGPipeline emb llm vs ucc).filter_by_metadata f).query question
              query_type).source_documents →
      matchesFilter f d.metadata = true := by
  refine ⟨rfl, rfl, rfl, ?_⟩
  intro question query_type d hd
  exact query_after_filter_matches _ f question query_type d hd

/-- Witness for C2: on a mixed-metadata fixture store, a filtered query
returns the EU document and it satisfies the filter. -/
theorem filter_then_query_returns_matching_witness :
    wDoc1 ∈ (((mkRAGPipeline wEmb wLLM wVS true).filter_by_metadata wFilter).query "q"
        "market").source_documents ∧
    matchesFilter wFilter wDoc1.metadata = true :=
  ⟨by decide,
   (filter_then_query_returns_matching wEmb wLLM wVS true wFilter).2.2.2 "q" "market"
     wDoc1 (by decide)⟩

/-- C9: `filter_by_metadata f` mutates exactly the `retriever`,
`default_qa` and `partner_qa` fields (the `embeddings`, `llm` and
`vectorstore` fields are untouched); the query handler leaves the shared
pipeline unchanged when no (truthy) filter is supplied (`RAGPipeline.query`
itself assigns no field, so querying mutates nothing); hence after
`filter_by_metadata f` every subsequent `query` retrieves with filter `f`,
until another `filter_by_metadata f2` call replaces the retriever with one
filtered by `f2`. -/
theorem filter_state_frame_and_persistence (p : RAGPipeline) (f f2 : MetaFilter) :
    ((p.filter_by_metadata f).embeddings = p.embeddings ∧
     (p.filter_by_metadata f).llm = p.llm ∧
     (p.filter_by_metadata f).vectorstore = p.vectorstore) ∧
    ((p.filter_by_metadata f).retriever = Retriever.plain p.vectorstore 10 (some f) ∧
     (p.filter_by_metadata f).default_qa =
       createQaChain p.llm (Retriever.plain p.vectorstore 10 (some f))
         MARKET_EXPANSION_TEMPLATE ∧
     (p.filter_by_metadata f).partner_qa =
       createQaChain p.llm (Retriever.plain p.vectorstore 10 (some f))
         PARTNER_DISCOVERY_TEMPLATE) ∧
    (∀ request : QueryRequest,
        request.metadata_filters = none ∨ request.metadata_filters = some [] →
        (query_assistant p request).2 = p) ∧
    (∀ (question query_type : String) (d : Doc),
        d ∈ ((p.filter_by_metadata f).query question query_type).source_documents →
        matchesFilter f d.metadata = true) ∧
    ((p.filter_by_metadata f).filter_by_metadata f2).retriever =
      Retriever.plain p.vectorstore 10 (some f2) := by
  refine ⟨⟨rfl, rfl, rfl⟩, ⟨rfl, rfl, rfl⟩, ?_, ?_, rfl⟩
  · intro request h
    rcases h with h | h <;> simp [query_assistant, h]
  · intro question query_type d hd
    exact query_after_filter_matches p f question query_type d hd

/-- Witness for C9: a filterless request leaves the shared pipeline
unchanged, and a document retrieved after filtering satisfies the filter. -/
theorem filter_state_frame_and_persistence_witness :
    (query_assistant (mkRAGPipeline wEmb wLLM wVS true)
        { question := "q", query_type := "market", metadata_filters := none }).2 =
      mkRAGPipeline wEmb wLLM wVS true ∧
    matchesFilter wFilter wDoc1.metadata = true :=
  ⟨(filter_state_frame_and_persistence (mkRAGPipeline wEmb wLLM wVS true) wFilter
      wFilter).2.2.1
      { question := "q", query_type := "market", metadata_filters := none } (Or.inl rfl),
   (filter_state_frame_and_persistence (mkRAGPipeline wEmb wLLM wVS true) wFilter
      wFilter).2.2.2.1 "q" "market" wDoc1 (by decide)⟩

/-- C10: every source document in the `POST /query` response is the
formatting of a retrieved document, and the formatting maps a document
whose metadata lacks a `"source"` key to a `SourceDocument` whose `source`
field is the string `"unknown"` while the full original metadata map is
passed through unchanged. -/
theorem source_defaults_to_unknown :
    (∀ (rag : RAGPipeline) (request : QueryRequest) (sd : SourceDocument),
        sd ∈ (query_assistant rag request).1.sources →
        ∃ doc : Doc, sd = formatSourceDocument doc) ∧
    (∀ doc : Doc, metaGet doc.metadata "source" = none →
        (formatSourceDocument doc).source = PVal.s "unknown" ∧
        (formatSourceDocument doc).metadata = doc.metadata) := by
  constructor
  · intro rag request sd hsd
    rcases request with ⟨q, t, mf⟩
    rcases mf with _ | f
    · simp only [query_assistant, List.mem_map] at hsd
      rcases hsd with ⟨doc, _, hdoc⟩
      exact ⟨doc, hdoc.symm⟩
    · by_cases hf : f = [] <;>
        · simp only [query_assistant, hf, if_true, if_false, List.mem_map] at hsd
          rcases hsd with ⟨doc, _, hdoc⟩
          exact ⟨doc, hdoc.symm⟩
  · intro doc h
    simp [formatSourceDocument, h]

/-- Witness for C10: the US fixture document has no `"source"` metadata key;
its formatted `SourceDocument` carries `source = "unknown"` and the original
metadata, and is exactly what the endpoint returns for a US-filtered query. -/
theorem source_defaults_to_unknown_witness :
    ((formatSourceDocument wDoc2).source = PVal.s "unknown" ∧
     (formatSourceDocument wDoc2).metadata = wDoc2.metadata) ∧
    (∃ doc : Doc, formatSourceDocument wDoc2 = formatSourceDocument doc) :=
  ⟨source_defaults_to_unknown.2 wDoc2 (by decide),
   source_defaults_to_unknown.1 (mkRAGPipeline wEmb wLLM wVS true)
     { question := "q", query_type := "market",
       metadata_filters := some [("region", PVal.s "US")] }
     (formatSourceDocument wDoc2) (by decide)⟩

/-! ## Lemmas about the Pinecone index model and the embedding job -/

lemma indexGet_upsertOne (idx : PineconeIndex) (v : PineconeVector) (k : String) :
    indexGet (upsertOne idx v) k = if v.id = k then some v else indexGet idx k := by
  induction idx with
  | nil => simp [upsertOne, indexGet]
  | cons w rest ih =>
      by_cases hw : w.id = v.id
      · simp only [upsertOne, if_pos hw, indexGet]
        by_cases hv : v.id = k
        · simp [hv]
        · rw [hw]
          simp [hv]
      · simp only [upsertOne, if_neg hw, indexGet, ih]
        by_cases hwk : w.id = k
        · have hvk : ¬v.id = k := fun h => hw (hwk.trans h.symm)
          simp [hwk, hvk]
        · simp [hwk]

lemma indexGet_upsertMany : ∀ (vs : List PineconeVector) (idx : PineconeIndex) (k : String),
    indexGet (upsertMany idx vs) k =
      match lastWrite vs k with
      | some w => some w
      | none => indexGet idx k := by
  intro vs
  induction vs with
  | nil => intro idx k; rfl
  | cons v rest ih =>
      intro idx k
      show indexGet (upsertMany (upsertOne idx v) rest) k = _
      rw [ih]
      cases hlw : lastWrite rest k with
      | some w => simp [lastWrite, hlw]
      | none =>
          rw [indexGet_upsertOne]
          by_cases hv : v.id = k <;> simp [lastWrite, hlw, hv]

lemma map_id_upsertOne (idx : PineconeIndex) (v : PineconeVector) :
    (upsertOne idx v).map (fun w => w.id) =
      if v.id ∈ idx.map (fun w => w.id) then idx.map (fun w => w.id)
      else idx.map (fun w => w.id) ++ [v.id] := by
  induction idx with
  | nil => simp [upsertOne]
  | cons w rest ih =>
      by_cases hw : w.id = v.id
      · simp [upsertOne, hw]
      · have hvw : ¬v.id = w.id := fun h => hw h.symm
        simp only [upsertOne, if_neg hw, List.map_cons, ih]
        by_cases hmem : v.id ∈ rest.map (fun w => w.id)
        · simp [hmem, List.mem_cons]
        · simp [hmem, List.mem_cons, hvw]

lemma nodupKeys_upsertOne (idx : PineconeIndex) (v : PineconeVector)
    (h : NodupKeys idx) : NodupKeys (upsertOne idx v) := by
  unfold NodupKeys at *
  rw [map_id_upsertOne]
  by_cases hmem : v.id ∈ idx.map (fun w => w.id)
  · simpa [hmem] using h
  · simp [hmem, List.nodup_append, h]

lemma nodupKeys_upsertMany : ∀ (vs : List PineconeVector) (idx : PineconeIndex),
    NodupKeys idx → NodupKeys (upsertMany idx vs) := by
  intro vs
  induction vs with
  | nil => intro idx h; exact h
  | cons v rest ih => intro idx h; exact ih _ (nodupKeys_upsertOne idx v h)

lemma keyCount_eq_zero_of_not_mem :
    ∀ (idx : PineconeIndex) (k : String), k ∉ idx.map (fun w => w.id) →
      keyCount idx k = 0 := by
  intro idx
  induction idx with
  | nil => intro k _; rfl
  | cons w rest ih =>
      intro k hk
      simp only [List.map_cons, List.mem_cons] at hk
      push_neg at hk
      have hwk : ¬w.id = k := fun h => hk.1 h.symm
      simp [keyCount, hwk, ih k hk.2]

lemma keyCount_eq_one :
    ∀ (idx : PineconeIndex) (k : String) (v : PineconeVector),
      NodupKeys idx → indexGet idx k = some v → keyCount idx k = 1 := by
  intro idx
  induction idx with
  | nil => intro k v _ hget; simp [indexGet] at hget
  | cons w rest ih =>
      intro k v hnd hget
      unfold NodupKeys at hnd
      rw [List.map_cons, List.nodup_cons] at hnd
      by_cases hwk : w.id = k
      · have h0 : keyCount rest k = 0 :=
          keyCount_eq_zero_of_not_mem rest k (hwk ▸ hnd.1)
        simp [keyCount, hwk, h0]
      · simp only [indexGet, if_neg hwk] at hget
        simp [keyCount, hwk, ih k v hnd.2 hget]

lemma lastWrite_isSome_of_mem :
    ∀ (vs : List PineconeVector) (k : String), k ∈ vs.map (fun v => v.id) →
      ∃ w, lastWrite vs k = some w := by
  intro vs
  induction vs with
  | nil => intro k hk; simp at hk
  | cons v rest ih =>
      intro k hk
      cases hlw : lastWrite rest k with
      | some w => exact ⟨w, by simp [lastWrite, hlw]⟩
      | none =>
          rcases List.mem_cons.mp hk with hk | hk
          · refine ⟨v, ?_⟩
            rw [hk] at hlw ⊢
            simp [lastWrite, hlw]
          · rcases ih k hk with ⟨w, hw⟩
            rw [hw] at hlw
            cases hlw

lemma pineconeRecordsOf_length :
    ∀ (records : List DataRecord) (embs : List Vec),
      embs.length = records.length →
      (pineconeRecordsOf records embs).length = records.length := by
  intro records
  induction records with
  | nil => intro embs _; cases embs <;> rfl
  | cons r rs ih =>
      intro embs h
      cases embs with
      | nil => simp at h
      | cons e es =>
          simp only [pineconeRecordsOf, List.length_cons] at *
          rw [ih es (by omega)]

lemma pineconeRecordsOf_ids :
    ∀ (records : List DataRecord) (embs : List Vec),
      embs.length = records.length →
      (pineconeRecordsOf records embs).map (fun v => v.id) =
        records.map (fun r => toString r.id) := by
  intro records
  induction records with
  | nil => intro embs _; cases embs <;> rfl
  | cons r rs ih =>
      intro embs h
      cases embs with
      | nil => simp at h
      | cons e es =>
          simp only [pineconeRecordsOf, List.map_cons, List.length_cons] at *
          rw [ih es (by omega)]

/-- Under the batch-success hypotheses, `embed_and_store_records` is exactly
an upsert of the zipped vectors with full success counts. -/
lemma embed_success_eq (st : Settings) (env : EmbedEnv) (idx : PineconeIndex)
    (records : List DataRecord) (embs : List Vec)
    (hne : records ≠ [])
    (hB : env.embedBatch st.novita_embedding_model (records.map (fun r => r.content)) =
      .ok embs)
    (hU : env.upsertFails (pineconeRecordsOf records embs) = false) :
    embed_and_store_records st env idx records =
      (upsertMany idx (pineconeRecordsOf records embs),
       (pineconeRecordsOf records embs).length, 0) := by
  simp [embed_and_store_records, hB, hU, hne]

lemma fallback_counts (st : Settings) (env : EmbedEnv) :
    ∀ (records : List DataRecord) (idx : PineconeIndex) (s e : Nat),
      (records.foldl (fallbackStep st env) (idx, s, e)).2.1 +
        (records.foldl (fallbackStep st env) (idx, s, e)).2.2 =
        s + e + records.length := by
  intro records
  induction records with
  | nil => intro idx s e; simp
  | cons r rest ih =>
      intro idx s e
      rw [List.foldl_cons]
      cases henv : env.embed st.novita_embedding_model r.content with
      | error msg =>
          have hstep : fallbackStep st env (idx, s, e) r = (idx, s, e + 1) := by
            simp [fallbackStep, henv]
          rw [hstep, ih]
          simp only [List.length_cons]
          omega
      | ok emb =>
          cases hu : env.upsertFails
              [{ id := toString r.id, values := emb, metadata := prepare_metadata r }] with
          | true =>
              have hstep : fallbackStep st env (idx, s, e) r = (idx, s, e + 1) := by
                simp [fallbackStep, henv, hu]
              rw [hstep, ih]
              simp only [List.length_cons]
              omega
          | false =>
              have hstep : fallbackStep st env (idx, s, e) r =
                  (upsertOne idx
                    { id := toString r.id, values := emb, metadata := prepare_metadata r },
                   s + 1, e) := by
                simp [fallbackStep, henv, hu]
              rw [hstep, ih]
              simp only [List.length_cons]
              omega

/-- C5: `embed_and_store_records` accounting.  An empty batch returns
`(0, 0)` immediately, leaving the index untouched and consulting none of the
external services (the result is the same for every environment).  For a
non-empty batch, if the batch embed-and-upsert path succeeds (with one
vector per content string) the result is `(number of records, 0)`; if the
batch path raises — in the batch embedding call or in the upsert — every
record is retried individually and the returned counts satisfy
`success_count + error_count = number of records`. -/
theorem embed_and_store_counts (st : Settings) (env : EmbedEnv) (idx : PineconeIndex) :
    (embed_and_store_records st env idx [] = (idx, 0, 0)) ∧
    (∀ (records : List DataRecord) (embs : List Vec), records ≠ [] →
        env.embedBatch st.novita_embedding_model (records.map (fun r => r.content)) =
          .ok embs →
        embs.length = records.length →
        env.upsertFails (pineconeRecordsOf records embs) = false →
        (embed_and_store_records st env idx records).2 = (records.length, 0)) ∧
    (∀ records : List DataRecord, records ≠ [] →
        ((∃ msg, env.embedBatch st.novita_embedding_model
            (records.map (fun r => r.content)) = .error msg) ∨
         (∃ embs, env.embedBatch st.novita_embedding_model
            (records.map (fun r => r.content)) = .ok embs ∧
            env.upsertFails (pineconeRecordsOf records embs) = true)) →
        (embed_and_store_records st env idx records).2.1 +
          (embed_and_store_records st env idx records).2.2 = records.length) := by
  refine ⟨by simp [embed_and_store_records], ?_, ?_⟩
  · intro records embs hne hB hlen hU
    rw [embed_success_eq st env idx records embs hne hB hU]
    simp [pineconeRecordsOf_length records embs hlen]
  · intro records hne hfail
    have hfold : embed_and_store_records st env idx records =
        records.foldl (fallbackStep st env) (idx, 0, 0) := by
      rcases hfail with ⟨msg, hB⟩ | ⟨embs, hB, hU⟩
      · simp [embed_and_store_records, hB, hne]
      · simp [embed_and_store_records, hB, hU, hne]
    rw [hfold]
    simpa using fallback_counts st env records idx 0 0

/-- Witness for C5: the empty batch, a fully successful 2-record batch, and
a failing batch whose per-record retry succeeds once and fails once. -/
theorem embed_and_store_counts_witness :
    embed_and_store_records wSt wGoodEnv [] [] = ([], 0, 0) ∧
    (embed_and_store_records wSt wGoodEnv [] [wRecA, wRecB]).2 = (2, 0) ∧
    (embed_and_store_records wSt wBadEnv [] [wRecA, wRecB]).2.1 +
      (embed_and_store_records wSt wBadEnv [] [wRecA, wRecB]).2.2 = 2 :=
  ⟨(embed_and_store_counts wSt wGoodEnv []).1,
   (embed_and_store_counts wSt wGoodEnv []).2.1 [wRecA, wRecB] [[1], [1]]
     (by decide) rfl rfl rfl,
   (embed_and_store_counts wSt wBadEnv []).2.2 [wRecA, wRecB] (by decide)
     (Or.inl ⟨"batch embedding failed", rfl⟩)⟩

/-- C4: running the embedding job twice over the same records (same ids,
same environment) is idempotent: the index after the second run has no
duplicate ids, agrees entry-for-entry with the index after the first run,
and for every distinct record id holds exactly one entry under the
stringified id — the entry the last write of the run produced (upsert
overwrites, never duplicates). -/
theorem embed_job_idempotent (st : Settings) (env : EmbedEnv) (idx : PineconeIndex)
    (records : List DataRecord) (embs : List Vec)
    (hk : NodupKeys idx) (hne : records ≠ [])
    (hB : env.embedBatch st.novita_embedding_model (records.map (fun r => r.content)) =
      .ok embs)
    (hlen : embs.length = records.length)
    (hU : env.upsertFails (pineconeRecordsOf records embs) = false) :
    NodupKeys (embed_and_store_records st env
        (embed_and_store_records st env idx records).1 records).1 ∧
    (∀ k, indexGet (embed_and_store_records st env
          (embed_and_store_records st env idx records).1 records).1 k =
        indexGet (embed_and_store_records st env idx records).1 k) ∧
    (∀ id, id ∈ records.map (fun r => r.id) →
        keyCount (embed_and_store_records st env
            (embed_and_store_records st env idx records).1 records).1 (toString id) = 1 ∧
        indexGet (embed_and_store_records st env
            (embed_and_store_records st env idx records).1 records).1 (toString id) =
          lastWrite (pineconeRecordsOf records embs) (toString id)) := by
  have h1 : (embed_and_store_records st env idx records).1 =
      upsertMany idx (pineconeRecordsOf records embs) := by
    rw [embed_success_eq st env idx records embs hne hB hU]
  have h2 : (embed_and_store_records st env
      (embed_and_store_records st env idx records).1 records).1 =
      upsertMany (upsertMany idx (pineconeRecordsOf records embs))
        (pineconeRecordsOf records embs) := by
    rw [h1, embed_success_eq st env _ records embs hne hB hU]
  have hnd1 : NodupKeys (upsertMany idx (pineconeRecordsOf records embs)) :=
    nodupKeys_upsertMany _ idx hk
  have hnd2 : NodupKeys (upsertMany (upsertMany idx (pineconeRecordsOf records embs))
      (pineconeRecordsOf records embs)) :=
    nodupKeys_upsertMany _ _ hnd1
  refine ⟨by rw [h2]; exact hnd2, ?_, ?_⟩
  · intro k
    rw [h2, h1]
    simp only [indexGet_upsertMany]
    cases hlw : lastWrite (pineconeRecordsOf records embs) k <;> simp [hlw]
  · intro id hid
    have hkd : toString id ∈ (pineconeRecordsOf records embs).map (fun v => v.id) := by
      rw [pineconeRecordsOf_ids records embs hlen]
      rcases List.mem_map.mp hid with ⟨r, hr, hrid⟩
      exact List.mem_map.mpr ⟨r, hr, by rw [hrid]⟩
    rcases lastWrite_isSome_of_mem _ _ hkd with ⟨w, hw⟩
    have hget2 : indexGet (embed_and_store_records st env
        (embed_and_store_records st env idx records).1 records).1 (toString id) = some w := by
      rw [h2]
      simp only [indexGet_upsertMany]
      simp [hw]
    refine ⟨keyCount_eq_one _ _ w (by rw [h2]; exact hnd2) hget2, ?_⟩
    rw [hget2, hw]

/-- Witness for C4: running the job twice over the two fixture records with
the well-behaved environment leaves exactly one entry under id `"1"`, equal
to the last write of the run. -/
theorem embed_job_idempotent_witness :
    keyCount (embed_and_store_records wSt wGoodEnv
        (embed_and_store_records wSt wGoodEnv [] [wRecA, wRecB]).1 [wRecA, wRecB]).1
      (toString (1 : Nat)) = 1 ∧
    indexGet (embed_and_store_records wSt wGoodEnv
        (embed_and_store_records wSt wGoodEnv [] [wRecA, wRecB]).1 [wRecA, wRecB]).1
      (toString (1 : Nat)) =
      lastWrite (pineconeRecordsOf [wRecA, wRecB] [[1], [1]]) (toString (1 : Nat)) :=
  (embed_job_idempotent wSt wGoodEnv [] [wRecA, wRecB] [[1], [1]]
    (by simp [NodupKeys]) (by decide) rfl rfl rfl).2.2 1 (by decide)

end Karius
